import Mathlib

/-!
Verification of the fracgen escape-time fractal renderer (src/main.rs).

The Rust source is shallowly embedded here. Machine floats (f32) are
modelled as rationals; the transcendental f32 operations (exp, sqrt, powf)
and the conversions of the RgbaF color type, whose module rgbaf.rs is not
part of the sources, are abstracted as explicit function parameters, so
every theorem below holds for every implementation of them. Rust i32
division and remainder truncate toward zero, which is Int.tdiv and
Int.tmod. The f32 loop counter of the escape loop starts at 0.0 and is
only ever incremented by 1.0, so it is modelled as a natural number that
is cast to the scalar field in the loop guard.
-/

namespace Fracgen

/-- Complex number with rational components, embedding num::complex::Complex of f32
as used by main.rs. -/
structure Complex where
  re : ℚ
  im : ℚ
deriving DecidableEq

instance : Add Complex :=
  ⟨fun a b => ⟨a.re + b.re, a.im + b.im⟩⟩

instance : Sub Complex :=
  ⟨fun a b => ⟨a.re - b.re, a.im - b.im⟩⟩

instance : Mul Complex :=
  ⟨fun a b => ⟨a.re * b.re - a.im * b.im, a.re * b.im + a.im * b.re⟩⟩

/-- Embedding of fn abs in main.rs: the squared magnitude re*re + im*im. -/
def abs (z : Complex) : ℚ :=
  z.re * z.re + z.im * z.im

/-- Embedding of fn normalize_coords in main.rs. -/
def normalize_coords (x y w h : ℤ) (z : ℚ) : Complex :=
  let nx : ℚ := 2 * ((x : ℚ) / (w : ℚ)) - 1
  let ny : ℚ := 2 * ((y : ℚ) / (h : ℚ)) - 1
  ⟨nx / z, ny * ((h : ℚ) / (w : ℚ)) / z⟩

/-- Modelled from the spec: the color module rgbaf.rs is not present under src.
Section 3 of the spec describes RgbaF as a four-channel floating-point color
(red, green, blue, alpha). -/
structure RgbaF where
  r : ℚ
  g : ℚ
  b : ℚ
  a : ℚ
deriving DecidableEq

/-- Modelled from the spec: RgbaF::new fills the accumulator color; the all-zero
accumulator out starts as RgbaF::new(0.0). -/
def RgbaF.new (v : ℚ) : RgbaF :=
  ⟨v, v, v, v⟩

/-- Modelled from the spec: component-wise addition of colors (section 3). -/
instance : Add RgbaF :=
  ⟨fun c d => ⟨c.r + d.r, c.g + d.g, c.b + d.b, c.a + d.a⟩⟩

/-- Modelled from the spec: component-wise multiplication of colors (section 3). -/
instance : Mul RgbaF :=
  ⟨fun c d => ⟨c.r * d.r, c.g * d.g, c.b * d.b, c.a * d.a⟩⟩

/-- Modelled from the spec: scalar division of a color (section 3). -/
instance : HDiv RgbaF ℚ RgbaF :=
  ⟨fun c q => ⟨c.r / q, c.g / q, c.b / q, c.a / q⟩⟩

/-- Modelled from the spec: RgbaF.to_RGB as used on the accumulator in
Renderer::pixel. Section 4.4 steps 4 and 5 proceed from the division by the
sample count directly to the per-channel square root, and section 3 only lists
conversion to an ordered 4-tuple for channel extraction, so this conversion is
channel-preserving. -/
def RgbaF.to_RGB (c : RgbaF) : RgbaF :=
  c

/-- Embedding of image::Rgba of u16: a four-channel 16-bit pixel. -/
structure Rgba16 where
  r : ℕ
  g : ℕ
  b : ℕ
  a : ℕ
deriving DecidableEq

/-- Modelled from the spec: the f32 transcendental operations (exp, sqrt, powf)
and the conversions of the missing rgbaf.rs module (sRGB gamma encoding and
HSV construction), abstracted as parameters; all theorems hold for every
implementation of these operations. -/
structure FloatOps where
  expf : ℚ → ℚ
  sqrtf : ℚ → ℚ
  powf : ℚ → ℚ → ℚ
  toSRGB : RgbaF → RgbaF
  from_hsv : ℚ → ℚ → ℚ → ℚ → RgbaF

/-- Embedding of struct Functs in main.rs: the pluggable function set. -/
structure Functs where
  iter_funct : Complex → Complex → Complex
  init_funct : Complex → Complex
  cmap_funct : Complex → Complex
  color_funct : ℚ → ℚ → Complex → ℚ → ℚ → RgbaF

/-- Embedding of struct Args in main.rs (the render configuration). -/
structure Args where
  width : ℤ
  height : ℤ
  name : String
  threads : ℕ
  origin : Complex
  zoom : ℚ
  samples : ℕ
  sampled : ℚ
  limit : ℚ
  bail : ℚ
  cexp : ℚ
  set_color : RgbaF

/-- Embedding of struct Renderer in main.rs. -/
structure Renderer where
  args : Args
  width : ℤ
  height : ℤ
  functs : Functs

/-- Embedding of Renderer::new. -/
def Renderer.new (args : Args) (functs : Functs) : Renderer :=
  ⟨args, args.width, args.height, functs⟩

/-- Upper bound on the number of iterations of the escape loop: the counter
starts at 0, increases by 1 each pass, and the guard requires the counter,
cast to the scalars, to stay below limit, so the loop runs at most
ceil(limit) times. Used as the fuel of the loop embedding. -/
def iterCap (limit : ℚ) : ℕ :=
  ⌈limit⌉.toNat

/-- Embedding of the while loop in Renderer::pixel (the escape loop), by
recursion on fuel. State is (z, i, s): the iterate, the iteration counter and
the smoothing sum. With fuel at least iterCap limit the fuel never runs out
before the guard fails. -/
def escapeAux (expf : ℚ → ℚ) (iterF : Complex → Complex → Complex)
    (bail limit : ℚ) (c : Complex) :
    ℕ → Complex → ℕ → ℚ → Complex × ℕ × ℚ
  | 0, z, i, s => (z, i, s)
  | fuel + 1, z, i, s =>
    if abs z < bail ∧ (i : ℚ) < limit then
      let z2 := iterF z c
      escapeAux expf iterF bail limit c fuel z2 (i + 1) (s + expf (-(abs z2)))
    else
      (z, i, s)

/-- Embedding of the escape-time evaluation in Renderer::pixel: z starts at
init_funct c, the loop runs, and the final iteration count, smoothing sum and
final z are yielded. -/
def escape (expf : ℚ → ℚ) (iterF : Complex → Complex → Complex)
    (initF : Complex → Complex) (bail limit : ℚ) (c : Complex) :
    ℕ × ℚ × Complex :=
  let res := escapeAux expf iterF bail limit c (iterCap limit) (initF c) 0 0
  (res.2.1, res.2.2, res.1)

/-- Column-major decomposition of a linear pixel index used both by
Renderer::pixel (sample coordinates) and by Renderer::render (raster scatter):
(i / height, i % height) with Rust i32 division, i.e. truncation toward zero. -/
def decomposeIndex (i h : ℤ) : ℤ × ℤ :=
  (Int.tdiv i h, Int.tmod i h)

/-- Embedding of the per-sample coordinate computation in Renderer::pixel:
coordinate-map the decomposed index, shift by the origin, jitter each axis by
the drawn value scaled by the pixel step over sampled, then apply the domain
transform. The pair j holds the two random draws of this sample. -/
def Renderer.sampleC (r : Renderer) (d : Complex) (j : ℚ × ℚ) (i : ℤ) : Complex :=
  let cr := decomposeIndex i r.height
  let c0 := normalize_coords cr.1 cr.2 r.width r.height r.args.zoom + r.args.origin
  let c1 : Complex := ⟨c0.re + d.re * (j.1 / r.args.sampled),
                       c0.im + d.im * (j.2 / r.args.sampled)⟩
  r.functs.cmap_funct c1

/-- Escape-loop result of one sample of Renderer::pixel, at the jittered
coordinate of that sample. -/
def Renderer.sampleEscape (r : Renderer) (fo : FloatOps) (d : Complex)
    (j : ℚ × ℚ) (i : ℤ) : ℕ × ℚ × Complex :=
  escape fo.expf r.functs.iter_funct r.functs.init_funct
    r.args.bail r.args.limit (r.sampleC d j i)

/-- Gamma-encoded color of one sample of Renderer::pixel: the color function
applied to the escape-loop result, then converted with to_sRGB. -/
def Renderer.sampleColor (r : Renderer) (fo : FloatOps) (d : Complex)
    (j : ℚ × ℚ) (i : ℤ) : RgbaF :=
  let res := r.sampleEscape fo d j i
  fo.toSRGB (r.functs.color_funct (res.1 : ℚ) res.2.1 res.2.2
    r.args.limit r.args.cexp)

/-- Embedding of one pass of the sample loop body of Renderer::pixel: the
squared gamma-encoded color is the value added to the accumulator when the
iteration count stayed below the limit, and the squared set_color otherwise. -/
def Renderer.sampleTerm (r : Renderer) (fo : FloatOps) (d : Complex)
    (j : ℚ × ℚ) (i : ℤ) : RgbaF :=
  let color2 := r.sampleColor fo d j i
  if ((r.sampleEscape fo d j i).1 : ℚ) < r.args.limit then color2 * color2
  else r.args.set_color * r.args.set_color

/-- Embedding of the sample accumulation in Renderer::pixel: the pixel step d
and the fold of the sample loop, starting from the all-zero accumulator. The
function j yields the two random draws of each sample. -/
def Renderer.sampleSum (r : Renderer) (fo : FloatOps) (j : ℕ → ℚ × ℚ)
    (i : ℤ) : RgbaF :=
  let d : Complex := normalize_coords 1 1 r.width r.height r.args.zoom -
    normalize_coords 0 0 r.width r.height r.args.zoom
  (List.range r.args.samples).foldl (fun out k => out + r.sampleTerm fo d (j k) i)
    (RgbaF.new 0)

/-- Embedding of the Rust cast expression (v * u16::MAX as f32) as u16 applied
after sqrt: an f32 to u16 conversion truncates toward zero and saturates to
the range of u16; on the nonnegative values produced here truncation is the
floor. -/
def toU16 (v : ℚ) : ℕ :=
  min ⌊v⌋.toNat 65535

/-- Embedding of Renderer::pixel: accumulate the samples, divide by the sample
count, convert with to_RGB, and map every channel through sqrt, the scaling by
u16::MAX and the cast to u16, giving the four channels of the output pixel in
order. -/
def Renderer.pixel (r : Renderer) (fo : FloatOps) (j : ℕ → ℚ × ℚ) (i : ℤ) : Rgba16 :=
  let m : RgbaF := r.sampleSum fo j i / (r.args.samples : ℚ)
  let o := m.to_RGB
  ⟨toU16 (fo.sqrtf o.r * 65535), toU16 (fo.sqrtf o.g * 65535),
   toU16 (fo.sqrtf o.b * 65535), toU16 (fo.sqrtf o.a * 65535)⟩

/-- Embedding of Renderer::render: the raster is a zero-initialized buffer
(ImageBuffer::new), every index in 0 .. width*height is mapped through
Renderer::pixel, and each result is scattered at the decomposed coordinates,
guarded by the bound check on the row that the source retains. The function
jit yields the random draws consumed by the pixel at each index. -/
def Renderer.render (r : Renderer) (fo : FloatOps) (jit : ℤ → ℕ → ℚ × ℚ) :
    ℤ → ℤ → Rgba16 :=
  (List.range (r.width * r.height).toNat).foldl
    (fun output k =>
      let i : ℤ := (k : ℤ)
      let xy := decomposeIndex i r.height
      if xy.2 < r.height then
        fun u v => if u = xy.1 ∧ v = xy.2 then r.pixel fo (jit i) i else output u v
      else output)
    (fun _ _ => ⟨0, 0, 0, 0⟩)

/-- Modelled from the spec, for comparison with Renderer.render: section 4.5
asks that every computed pixel result be scattered into the raster at its
decomposed coordinates; this is the same scatter with no bound check, so
no result is ever dropped. -/
def Renderer.renderTotal (r : Renderer) (fo : FloatOps) (jit : ℤ → ℕ → ℚ × ℚ) :
    ℤ → ℤ → Rgba16 :=
  (List.range (r.width * r.height).toNat).foldl
    (fun output k =>
      let i : ℤ := (k : ℤ)
      let xy := decomposeIndex i r.height
      fun u v => if u = xy.1 ∧ v = xy.2 then r.pixel fo (jit i) i else output u v)
    (fun _ _ => ⟨0, 0, 0, 0⟩)

/-- Embedding of Renderer::update_args: the receiver is consumed by value, its
local copy is overwritten, and nothing is returned, so the update is not
observable on any retained renderer. -/
def Renderer.update_args (self : Renderer) (args : Args) : Unit :=
  let _updated : Renderer :=
    { self with args := args, width := args.width, height := args.height }
  ()

/-- Embedding of Renderer::update_functs: the receiver is consumed by value and
nothing is returned. -/
def Renderer.update_functs (self : Renderer) (functs : Functs) : Unit :=
  let _updated : Renderer := { self with functs := functs }
  ()

/-- Embedding of fn coloring in main.rs, the default color function: the hue is
two chained powf applications on the scaled inverted smoothing ratio, the
color is built from HSV with saturation 0.5 and value 1.0, and the alpha
channel is then forced to 1.0. -/
def coloring (fo : FloatOps) (i s : ℚ) (z : Complex) (limit cexp : ℚ) : RgbaF :=
  let hue := fo.powf (fo.powf ((1 - s / limit) * 360) cexp) (3 / 2)
  let color := fo.from_hsv hue (1 / 2) 1 1
  { color with a := 1 }

/-- Embedding of fn map_complex in main.rs: the identity domain transform. -/
def map_complex (z : Complex) : Complex :=
  z

/-- Embedding of the function set built in main: the quadratic Mandelbrot
iteration, identity initializer, identity domain transform and the default
coloring. -/
def defaultFuncts (fo : FloatOps) : Functs :=
  { iter_funct := fun z c => z * z + c
    init_funct := fun c => c
    cmap_funct := map_complex
    color_funct := coloring fo }

/-- Sequence of iterates of the escape loop: the z value after n passes of
the loop body, starting from init_funct c. -/
def orbit (iterF : Complex → Complex → Complex) (initF : Complex → Complex)
    (c : Complex) : ℕ → Complex
  | 0 => initF c
  | n + 1 => iterF (orbit iterF initF c n) c

/-- Smoothing sum after n passes of the loop body: one exp term per executed
pass, each taken at the z value produced by that pass. -/
def ssum (expf : ℚ → ℚ) (iterF : Complex → Complex → Complex)
    (initF : Complex → Complex) (c : Complex) : ℕ → ℚ
  | 0 => 0
  | n + 1 => ssum expf iterF initF c n + expf (-(abs (orbit iterF initF c (n + 1))))

/-- Fuel adequacy: the loop counter, seen in the scalars, is below limit
exactly when it is below the fuel bound iterCap limit. -/
lemma lt_iterCap_iff (n : ℕ) (limit : ℚ) : n < iterCap limit ↔ (n : ℚ) < limit := by
  unfold iterCap
  rw [Int.lt_toNat, Int.lt_ceil]
  push_cast
  exact Iff.rfl

/-- Characterization of the escape loop embedding: started at pass i of the
orbit with enough fuel, it stops at the first pass m at which the guard fails,
having executed exactly the passes i, i+1, ..., m-1. -/
lemma escapeAux_orbit (expf : ℚ → ℚ) (iterF : Complex → Complex → Complex)
    (initF : Complex → Complex) (bail limit : ℚ) (c : Complex) :
    ∀ fuel i : ℕ, iterCap limit ≤ i + fuel →
    ∃ m : ℕ, i ≤ m ∧
      escapeAux expf iterF bail limit c fuel (orbit iterF initF c i) i
          (ssum expf iterF initF c i)
        = (orbit iterF initF c m, m, ssum expf iterF initF c m) ∧
      (∀ k, i ≤ k → k < m →
        abs (orbit iterF initF c k) < bail ∧ (k : ℚ) < limit) ∧
      ¬(abs (orbit iterF initF c m) < bail ∧ (m : ℚ) < limit) := by
  intro fuel
  induction fuel with
  | zero =>
    intro i hi
    refine ⟨i, le_refl i, rfl, ?_, ?_⟩
    · intro k hk1 hk2
      omega
    · rintro ⟨-, hlt⟩
      have := (lt_iterCap_iff i limit).mpr hlt
      omega
  | succ fuel ih =>
    intro i hi
    by_cases hg : abs (orbit iterF initF c i) < bail ∧ (i : ℚ) < limit
    · have step :
          escapeAux expf iterF bail limit c (fuel + 1) (orbit iterF initF c i) i
              (ssum expf iterF initF c i)
            = escapeAux expf iterF bail limit c fuel (orbit iterF initF c (i + 1))
              (i + 1) (ssum expf iterF initF c (i + 1)) := by
        simp only [escapeAux, if_pos hg]
        rfl
      obtain ⟨m, hm1, hm2, hm3, hm4⟩ := ih (i + 1) (by omega)
      refine ⟨m, by omega, step.trans hm2, ?_, hm4⟩
      intro k hk1 hk2
      rcases eq_or_lt_of_le hk1 with h | h
      · exact h ▸ hg
      · exact hm3 k (by omega) hk2
    · refine ⟨i, le_refl i, ?_, ?_, hg⟩
      · simp only [escapeAux, if_neg hg]
      · intro k hk1 hk2
        omega

/-- C1: the escape-time loop computes exactly: z is set to init(c), then while
magnitudeSquared(z) < bail and the iteration count is below limit it updates
z = iterate(z, c), increments the count by 1, and adds exp of the negated
squared magnitude of the new z to the smoothing sum, terminating as soon as
either condition fails; it yields the final iteration count, smoothing sum and
final z, where the squared magnitude of z is re(z)^2 + im(z)^2. -/
theorem escape_loop_spec (expf : ℚ → ℚ) (iterF : Complex → Complex → Complex)
    (initF : Complex → Complex) (bail limit : ℚ) (c : Complex) :
    (∀ w : Complex, abs w = w.re * w.re + w.im * w.im) ∧
    (orbit iterF initF c 0 = initF c) ∧
    (∀ k, orbit iterF initF c (k + 1) = iterF (orbit iterF initF c k) c) ∧
    (ssum expf iterF initF c 0 = 0) ∧
    (∀ k, ssum expf iterF initF c (k + 1)
      = ssum expf iterF initF c k + expf (-(abs (orbit iterF initF c (k + 1))))) ∧
    ∃ n : ℕ,
      escape expf iterF initF bail limit c
        = (n, ssum expf iterF initF c n, orbit iterF initF c n) ∧
      (∀ k, k < n → abs (orbit iterF initF c k) < bail ∧ (k : ℚ) < limit) ∧
      ¬(abs (orbit iterF initF c n) < bail ∧ (n : ℚ) < limit) := by
  refine ⟨fun w => rfl, rfl, fun k => rfl, rfl, fun k => rfl, ?_⟩
  obtain ⟨m, -, h2, h3, h4⟩ :=
    escapeAux_orbit expf iterF initF bail limit c (iterCap limit) 0 (by omega)
  refine ⟨m, ?_, fun k hk => h3 k (Nat.zero_le k) hk, h4⟩
  unfold escape
  rw [show (initF c) = orbit iterF initF c 0 from rfl,
    show (0 : ℚ) = ssum expf iterF initF c 0 from rfl, h2]

/-- C4: for every integer pixel coordinate (x, y), width w > 0, height h > 0
and zoom z > 0, the coordinate mapper returns the complex value with real part
(2*(x/w) - 1) / z and imaginary part (2*(y/h) - 1) * (h/w) / z, with no
clamping of out-of-range inputs. -/
theorem normalize_coords_spec (x y w h : ℤ) (z : ℚ)
    (hw : 0 < w) (hh : 0 < h) (hz : 0 < z) :
    normalize_coords x y w h z
      = ⟨(2 * ((x : ℚ) / (w : ℚ)) - 1) / z,
         (2 * ((y : ℚ) / (h : ℚ)) - 1) * ((h : ℚ) / (w : ℚ)) / z⟩ :=
  rfl

/-- Witness for C4 at the out-of-range coordinate (3, -2) on a 2 by 2 image
with zoom 1. -/
theorem normalize_coords_spec_witness :
    (0 : ℤ) < 2 ∧ (0 : ℚ) < 1 ∧
    normalize_coords 3 (-2) 2 2 1
      = ⟨(2 * ((3 : ℚ) / (2 : ℚ)) - 1) / 1,
         (2 * ((-2 : ℚ) / (2 : ℚ)) - 1) * ((2 : ℚ) / (2 : ℚ)) / 1⟩ :=
  ⟨by decide, by decide,
    normalize_coords_spec 3 (-2) 2 2 1 (by decide) (by decide) (by decide)⟩

/-- C5: for every pixel linear index i in the range with positive height, the
column-major decomposition (col, row) = (i / height, i % height) recomposes to
col * height + row = i; both Renderer.sampleC and Renderer.render take their
coordinates from decomposeIndex. -/
theorem decomposeIndex_roundtrip (i w h : ℤ)
    (h0 : 0 ≤ i) (h1 : i < w * h) (h2 : 0 < h) :
    (decomposeIndex i h).1 * h + (decomposeIndex i h).2 = i :=
  Int.tdiv_add_tmod' i h

/-- Witness for C5 at index 5 of a 2 by 3 raster. -/
theorem decomposeIndex_roundtrip_witness :
    (0 : ℤ) ≤ 5 ∧ (5 : ℤ) < 2 * 3 ∧ (0 : ℤ) < 3 ∧
    (decomposeIndex 5 3).1 * 3 + (decomposeIndex 5 3).2 = 5 :=
  ⟨by decide, by decide, by decide,
    decomposeIndex_roundtrip 5 2 3 (by decide) (by decide) (by decide)⟩

/-- Test configuration used by the concrete witnesses: a 1 by 1 image with one
sample and all scalar settings at 1. -/
def argsTest : Args :=
  { width := 1, height := 1, name := "m", threads := 1, origin := ⟨0, 0⟩,
    zoom := 1, samples := 1, sampled := 1, limit := 1, bail := 1, cexp := 1,
    set_color := RgbaF.new 0 }

/-- Concrete float operations used by the witnesses. -/
def foTest : FloatOps :=
  { expf := fun q => q, sqrtf := fun q => q, powf := fun a b => a + b,
    toSRGB := fun c => c, from_hsv := fun h s v a => ⟨h, s, v, a⟩ }

/-- Default function set over the test float operations. -/
def functsTest : Functs :=
  defaultFuncts foTest

/-- Renderer built from the test configuration. -/
def rTest : Renderer :=
  Renderer.new argsTest functsTest

/-- Jitter draws fixed at zero for one pixel. -/
def jTest : ℕ → ℚ × ℚ :=
  fun _ => (0, 0)

/-- Jitter draws fixed at zero for a whole render. -/
def jit2Test : ℤ → ℕ → ℚ × ℚ :=
  fun _ _ => (0, 0)

/-- C2: for every pixel, after all samples are accumulated, the final 16-bit
pixel divides the accumulated color sum by the sample count, takes the
per-channel square root, multiplies by 65535 and truncates to an unsigned
16-bit value, with no other transformation between the division and the
square root. -/
theorem pixel_final_conversion (r : Renderer) (fo : FloatOps) (j : ℕ → ℚ × ℚ)
    (i : ℤ) (hs : 0 < r.args.samples) :
    r.pixel fo j i =
      ⟨toU16 (fo.sqrtf ((r.sampleSum fo j i).r / (r.args.samples : ℚ)) * 65535),
       toU16 (fo.sqrtf ((r.sampleSum fo j i).g / (r.args.samples : ℚ)) * 65535),
       toU16 (fo.sqrtf ((r.sampleSum fo j i).b / (r.args.samples : ℚ)) * 65535),
       toU16 (fo.sqrtf ((r.sampleSum fo j i).a / (r.args.samples : ℚ)) * 65535)⟩ :=
  rfl

/-- Witness for C2 on the test renderer at pixel index 0. -/
theorem pixel_final_conversion_witness :
    0 < rTest.args.samples ∧
    rTest.pixel foTest jTest 0 =
      ⟨toU16 (foTest.sqrtf ((rTest.sampleSum foTest jTest 0).r /
          (rTest.args.samples : ℚ)) * 65535),
       toU16 (foTest.sqrtf ((rTest.sampleSum foTest jTest 0).g /
          (rTest.args.samples : ℚ)) * 65535),
       toU16 (foTest.sqrtf ((rTest.sampleSum foTest jTest 0).b /
          (rTest.args.samples : ℚ)) * 65535),
       toU16 (foTest.sqrtf ((rTest.sampleSum foTest jTest 0).a /
          (rTest.args.samples : ℚ)) * 65535)⟩ :=
  ⟨by decide, pixel_final_conversion rTest foTest jTest 0 (by decide)⟩

/-- C3: for every sample of every pixel, the point is classified as escaped
exactly when the iteration count is strictly below the limit at loop exit; if
escaped, the gamma-encoded color squared component-wise is the value added to
the running sum, otherwise the configured set_color squared component-wise,
without gamma re-encoding. -/
theorem sampleTerm_classification (r : Renderer) (fo : FloatOps) (d : Complex)
    (j : ℚ × ℚ) (i : ℤ) :
    r.sampleTerm fo d j i =
      if ((r.sampleEscape fo d j i).1 : ℚ) < r.args.limit then
        r.sampleColor fo d j i * r.sampleColor fo d j i
      else
        r.args.set_color * r.args.set_color :=
  rfl

/-- C6: the default color function computes the hue as two chained power
operations, first raising (1 - smoothSum/limit) * 360 to the exponent and then
raising the result to 1.5, builds the color from HSV with saturation 0.5 and
value 1.0, and forces the alpha channel to 1.0. -/
theorem coloring_spec (fo : FloatOps) (i s : ℚ) (z : Complex) (limit cexp : ℚ) :
    coloring fo i s z limit cexp
      = { fo.from_hsv (fo.powf (fo.powf ((1 - s / limit) * 360) cexp) (3 / 2))
            (1 / 2) 1 1 with
          a := 1 } :=
  rfl

/-- Stopping lemma: when the guard fails at the current state the loop returns
it unchanged, whatever the fuel. -/
lemma escapeAux_stop (expf : ℚ → ℚ) (iterF : Complex → Complex → Complex)
    (bail limit : ℚ) (c : Complex) (fuel : ℕ) (z : Complex) (i : ℕ) (s : ℚ)
    (h : ¬(abs z < bail ∧ (i : ℚ) < limit)) :
    escapeAux expf iterF bail limit c fuel z i s = (z, i, s) := by
  cases fuel with
  | zero => rfl
  | succ n => simp only [escapeAux, if_neg h]

/-- C8: with the default initializer, an input whose squared magnitude is
already at least bail never enters the loop body: the count is 0, the
smoothing sum is 0 and z remains the initial value c. -/
theorem escape_bail_spec (expf : ℚ → ℚ) (iterF : Complex → Complex → Complex)
    (bail limit : ℚ) (c : Complex) (h : bail ≤ abs c) :
    escape expf iterF (fun w => w) bail limit c = (0, 0, c) := by
  have hng : ¬(abs c < bail ∧ ((0 : ℕ) : ℚ) < limit) :=
    fun hc => absurd hc.1 (not_lt.mpr h)
  exact congrArg (fun p : Complex × ℕ × ℚ => (p.2.1, p.2.2, p.1))
    (escapeAux_stop expf iterF bail limit c (iterCap limit) c 0 0 hng)

/-- Witness for C8 at c = 1 with bail 1: the squared magnitude 1 is already at
the bail threshold, so the loop yields count 0. -/
theorem escape_bail_spec_witness :
    (1 : ℚ) ≤ abs ⟨1, 0⟩ ∧
    escape (fun q => q) (fun z c => z * z + c) (fun w => w) 1 7 ⟨1, 0⟩
      = (0, 0, ⟨1, 0⟩) := by
  have h : (1 : ℚ) ≤ abs ⟨1, 0⟩ := by simp [abs]
  exact ⟨h, escape_bail_spec (fun q => q) (fun z c => z * z + c) 1 7 ⟨1, 0⟩ h⟩

/-- Orbit of the default quadratic iteration started at the origin: z stays at
0 through every iteration. -/
lemma orbit_origin (n : ℕ) :
    orbit (fun z c => z * z + c) (fun c => c) ⟨0, 0⟩ n = ⟨0, 0⟩ := by
  induction n with
  | zero => rfl
  | succ k ih =>
    show (fun z c => z * z + c) (orbit (fun z c => z * z + c) (fun c => c) ⟨0, 0⟩ k)
        ⟨0, 0⟩ = ⟨0, 0⟩
    rw [ih]
    show (⟨0 * 0 - 0 * 0 + 0, 0 * 0 + 0 * 0 + 0⟩ : Complex) = ⟨0, 0⟩
    norm_num

/-- Iteration count of the escape loop at the origin with the default function
set: the guard on the magnitude never fails, so the loop stops exactly when
the counter reaches the ceiling of limit. -/
lemma escape_origin_count (expf : ℚ → ℚ) (bail limit : ℚ) (hb : 0 < bail) :
    (escape expf (fun z c => z * z + c) (fun c => c) bail limit ⟨0, 0⟩).1
      = iterCap limit := by
  obtain ⟨m, -, h2, h3, h4⟩ :=
    escapeAux_orbit expf (fun z c => z * z + c) (fun c => c) bail limit ⟨0, 0⟩
      (iterCap limit) 0 (by omega)
  have habs : abs (⟨0, 0⟩ : Complex) = 0 := by simp [abs]
  have hm1 : ¬((m : ℚ) < limit) := by
    intro hlt
    exact h4 ⟨by rw [orbit_origin m, habs]; exact hb, hlt⟩
  have hge : iterCap limit ≤ m := by
    by_contra hcon
    push_neg at hcon
    exact hm1 ((lt_iterCap_iff m limit).mp hcon)
  have hle : m ≤ iterCap limit := by
    by_contra hcon
    push_neg at hcon
    have hk := (h3 (iterCap limit) (Nat.zero_le _) hcon).2
    have := (lt_iterCap_iff (iterCap limit) limit).mpr hk
    omega
  have hm : m = iterCap limit := le_antisymm hle hge
  have := congrArg (fun p : Complex × ℕ × ℚ => p.2.1) h2
  simpa [escape, hm] using this

/-- Counterexample for C7 as stated: with bail 1 and the positive non-integer
limit 5/2, the loop at c = 0 exits with iteration count 3, which is not equal
to the limit. -/
theorem escape_zero_counterexample :
    0 < (1 : ℚ) ∧ 0 < (5 / 2 : ℚ) ∧
    (((escape (fun q => q) (fun z c => z * z + c) (fun c => c) 1 (5 / 2)
        ⟨0, 0⟩).1 : ℚ) ≠ (5 / 2 : ℚ)) := by
  refine ⟨by norm_num, by norm_num, ?_⟩
  rw [escape_origin_count (fun q => q) 1 (5 / 2) (by norm_num)]
  have hc : iterCap (5 / 2 : ℚ) = 3 := by
    unfold iterCap
    have : ⌈(5 / 2 : ℚ)⌉ = 3 := by
      rw [Int.ceil_eq_iff]
      norm_num
    rw [this]
    rfl
  rw [hc]
  norm_num

/-- C7 amended: with the default function set, any bail > 0 and limit > 0, the
escape loop at c = 0 exits with an iteration count equal to the ceiling of
limit (hence equal to limit exactly when limit is a positive integer), and the
point is classified as in the set since the count is not below the limit. -/
theorem escape_zero_spec (expf : ℚ → ℚ) (bail limit : ℚ)
    (hb : 0 < bail) (hl : 0 < limit) :
    (escape expf (fun z c => z * z + c) (fun c => c) bail limit ⟨0, 0⟩).1
        = iterCap limit ∧
    ¬(((escape expf (fun z c => z * z + c) (fun c => c) bail limit
        ⟨0, 0⟩).1 : ℚ) < limit) := by
  have h := escape_origin_count expf bail limit hb
  refine ⟨h, ?_⟩
  rw [h]
  intro hlt
  exact absurd ((lt_iterCap_iff (iterCap limit) limit).mpr hlt) (lt_irrefl _)

/-- Witness for C7 amended at bail 1, limit 1. -/
theorem escape_zero_spec_witness :
    0 < (1 : ℚ) ∧
    ((escape (fun q => q) (fun z c => z * z + c) (fun c => c) 1 1 ⟨0, 0⟩).1
        = iterCap 1 ∧
     ¬(((escape (fun q => q) (fun z c => z * z + c) (fun c => c) 1 1
        ⟨0, 0⟩).1 : ℚ) < 1)) :=
  ⟨by decide, escape_zero_spec (fun q => q) 1 1 (by decide) (by decide)⟩

/-- Congruence for folds whose step functions agree on the members of the
list. -/
lemma foldl_congr_on {α β : Type} {l : List α} {f g : β → α → β}
    (h : ∀ a ∈ l, ∀ b, f b a = g b a) : ∀ b, l.foldl f b = l.foldl g b := by
  induction l with
  | nil => intro b; rfl
  | cons hd tl ih =>
    intro b
    simp only [List.foldl_cons]
    rw [h hd (List.mem_cons_self hd tl)]
    exact ih (fun a ha b2 => h a (List.mem_cons_of_mem hd ha) b2) _

/-- C9: in the raster scatter of the parallel renderer, with positive height
the derived row of every scattered index lies below the height, so the
defensive bound check never triggers: the guarded scatter writes exactly what
the spec-side scatter with every result written produces. -/
theorem render_writes_all (r : Renderer) (fo : FloatOps) (jit : ℤ → ℕ → ℚ × ℚ)
    (hh : 0 < r.height) :
    r.render fo jit = r.renderTotal fo jit := by
  unfold Renderer.render Renderer.renderTotal
  refine foldl_congr_on ?_ _
  intro k hk output
  have hguard : (decomposeIndex (k : ℤ) r.height).2 < r.height :=
    Int.tmod_lt_of_pos (k : ℤ) hh
  exact if_pos hguard

/-- Witness for C9 on the 1 by 1 test renderer. -/
theorem render_writes_all_witness :
    0 < rTest.height ∧
    rTest.render foTest jit2Test = rTest.renderTotal foTest jit2Test :=
  ⟨by decide, render_writes_all rTest foTest jit2Test (by decide)⟩

/-- C10: a renderer's configuration and function set are fixed at
construction: Renderer.new caches the dimensions out of the arguments, and
the consuming updaters return nothing, so no sequence of public operations
changes what a retained renderer renders with. -/
theorem renderer_fixed_at_construction (args : Args) (functs : Functs) :
    (Renderer.new args functs).args = args ∧
    (Renderer.new args functs).width = args.width ∧
    (Renderer.new args functs).height = args.height ∧
    (Renderer.new args functs).functs = functs ∧
    (∀ (r : Renderer) (a : Args), r.update_args a = ()) ∧
    (∀ (r : Renderer) (f : Functs), r.update_functs f = ()) :=
  ⟨rfl, rfl, rfl, rfl, fun _ _ => rfl, fun _ _ => rfl⟩

end Fracgen
